import Mathlib

/-!
# KeyChord: construction, hash and equality

A shallow embedding of `src/cascadia/TerminalControl/KeyChord.cpp`.

Machine integers are modelled by `Nat` / `Int` with explicit reductions:
* `uint64_t` arithmetic is arithmetic on `Nat` modulo `2 ^ 64`;
* `int32_t` values are integers in `[-2 ^ 31, 2 ^ 31)`;
* `VirtualKeyModifiers` is a `uint32_t` flag enumeration, a `Nat` below `2 ^ 32`.

The platform function `MapVirtualKeyW` is not part of the file; it is a parameter of
the constructors.
-/

namespace Microsoft.Terminal.Control

/-! ## Integer conversions -/

/-- Conversion of a signed value to `UINT` (`uint32_t`): reduction modulo `2 ^ 32`. -/
def toUInt32 (i : Int) : Nat := (i % 2 ^ 32).toNat

/-- Conversion of a `UINT` to `int32_t`: the two-complement reading of the low 32 bits. -/
def toInt32 (u : Nat) : Int :=
  if u % 2 ^ 32 < 2 ^ 31 then ((u % 2 ^ 32 : Nat) : Int)
  else ((u % 2 ^ 32 : Nat) : Int) - 2 ^ 32

/-- Conversion of an `int32_t` to `uint64_t`, as the usual arithmetic conversions perform it
for the right operand of `h |= x`: reduction modulo `2 ^ 64`, which sign-extends. -/
def toUInt64 (i : Int) : Nat := (i % 2 ^ 64).toNat

/-! ## Data model -/

/-- `winrt::Windows::System::VirtualKeyModifiers`, a `uint32_t` flag enumeration. -/
abbrev VirtualKeyModifiers := Nat

/-- `VirtualKeyModifiers::None`. -/
def VirtualKeyModifiers.None : VirtualKeyModifiers := 0
/-- `VirtualKeyModifiers::Control`. -/
def VirtualKeyModifiers.Control : VirtualKeyModifiers := 1
/-- `VirtualKeyModifiers::Menu`. -/
def VirtualKeyModifiers.Menu : VirtualKeyModifiers := 2
/-- `VirtualKeyModifiers::Shift`. -/
def VirtualKeyModifiers.Shift : VirtualKeyModifiers := 4
/-- `VirtualKeyModifiers::Windows`. -/
def VirtualKeyModifiers.Windows : VirtualKeyModifiers := 8

/-- The map type `MAPVK_VSC_TO_VK_EX` passed to `MapVirtualKeyW`. -/
def MAPVK_VSC_TO_VK_EX : Nat := 3

/-- The state of a `KeyChord` object: `_modifiers`, `_vkey`, `_scanCode`. -/
structure KeyChord where
  _modifiers : VirtualKeyModifiers
  _vkey : Int
  _scanCode : Int
deriving DecidableEq, Repr

/-- The fields hold values of their C++ types: `_modifiers` a `uint32_t`,
`_vkey` and `_scanCode` an `int32_t`. -/
def KeyChord.InRange (c : KeyChord) : Prop :=
  c._modifiers < 2 ^ 32 ∧ (-2 ^ 31 ≤ c._vkey ∧ c._vkey < 2 ^ 31) ∧
    (-2 ^ 31 ≤ c._scanCode ∧ c._scanCode < 2 ^ 31)

instance (c : KeyChord) : Decidable c.InRange := by
  unfold KeyChord.InRange; infer_instance

/-! ## Operations -/

/-- `WI_SetFlagIf(var, flag, cond)`: set the bits of `flag` in `var` when `cond` holds. -/
def WI_SetFlagIf (var flag : VirtualKeyModifiers) (cond : Bool) : VirtualKeyModifiers :=
  if cond then var ||| flag else var

/-- `modifiersFromBooleans` (lines 13-21). -/
def modifiersFromBooleans (ctrl alt shift win : Bool) : VirtualKeyModifiers :=
  let modifiers := VirtualKeyModifiers.None
  let modifiers := WI_SetFlagIf modifiers VirtualKeyModifiers.Control ctrl
  let modifiers := WI_SetFlagIf modifiers VirtualKeyModifiers.Menu alt
  let modifiers := WI_SetFlagIf modifiers VirtualKeyModifiers.Shift shift
  let modifiers := WI_SetFlagIf modifiers VirtualKeyModifiers.Windows win
  modifiers

/-- `nonZeroEquals` (lines 25-30): both arguments are not zero and equal each other. -/
def nonZeroEquals (lhs rhs : Int) : Bool :=
  (lhs != 0) && (rhs != 0) && (lhs == rhs)

/-- The right-hand side of line 48, `MapVirtualKeyW(scanCode, MAPVK_VSC_TO_VK_EX)` together
with its implicit conversions: the `int32_t` scan code is passed as a `UINT` and the
`UINT` result is stored into the `int32_t` `_vkey`. -/
def mapScanCodeToVkey (MapVirtualKeyW : Nat → Nat → Nat) (scanCode : Int) : Int :=
  toInt32 (MapVirtualKeyW (toUInt32 scanCode) MAPVK_VSC_TO_VK_EX)

/-- The constructor `KeyChord::KeyChord(const VirtualKeyModifiers, int32_t, int32_t)`
(lines 37-52). The result is `none` when `assert(_vkey || _scanCode)` fails. -/
def KeyChord.ctor (MapVirtualKeyW : Nat → Nat → Nat) (modifiers : VirtualKeyModifiers)
    (vkey scanCode : Int) : Option KeyChord :=
  let _vkey := if vkey = 0 then mapScanCodeToVkey MapVirtualKeyW scanCode else vkey
  if _vkey ≠ 0 ∨ scanCode ≠ 0 then some ⟨modifiers, _vkey, scanCode⟩ else none

/-- The constructor `KeyChord::KeyChord(bool, bool, bool, bool, int32_t, int32_t)`
(lines 32-35), which delegates to the other constructor. -/
def KeyChord.ctorFromBooleans (MapVirtualKeyW : Nat → Nat → Nat) (ctrl alt shift win : Bool)
    (vkey scanCode : Int) : Option KeyChord :=
  KeyChord.ctor MapVirtualKeyW (modifiersFromBooleans ctrl alt shift win) vkey scanCode

/-- `KeyChord::Hash` (lines 54-68), all arithmetic in `uint64_t`. -/
def KeyChord.Hash (c : KeyChord) : Nat :=
  let h := ((c._modifiers % 2 ^ 64) <<< 32) % 2 ^ 64
  let h := h ||| toUInt64 (if c._vkey ≠ 0 then c._vkey else c._scanCode)
  let h := h ^^^ (h >>> 33)
  let h := (h * 0xff51afd7ed558ccd) % 2 ^ 64
  let h := h ^^^ (h >>> 33)
  let h := (h * 0xc4ceb9fe1a85ec53) % 2 ^ 64
  let h := h ^^^ (h >>> 33)
  h

/-- `KeyChord::Equals` (lines 70-77). -/
def KeyChord.Equals (c other : KeyChord) : Bool :=
  (c._modifiers == other._modifiers) &&
    (nonZeroEquals c._vkey other._vkey || nonZeroEquals c._scanCode other._scanCode)

/-- The getter `KeyChord::Modifiers()` (lines 79-82). -/
def KeyChord.Modifiers (c : KeyChord) : VirtualKeyModifiers := c._modifiers

/-- The setter `KeyChord::Modifiers(value)` (lines 84-87). -/
def KeyChord.setModifiers (c : KeyChord) (value : VirtualKeyModifiers) : KeyChord :=
  { c with _modifiers := value }

/-- The getter `KeyChord::Vkey()` (lines 89-92). -/
def KeyChord.Vkey (c : KeyChord) : Int := c._vkey

/-- The setter `KeyChord::Vkey(value)` (lines 94-97). -/
def KeyChord.setVkey (c : KeyChord) (value : Int) : KeyChord :=
  { c with _vkey := value }

/-- The getter `KeyChord::ScanCode()` (lines 99-102). -/
def KeyChord.ScanCode (c : KeyChord) : Int := c._scanCode

/-- The setter `KeyChord::ScanCode(value)` (lines 104-107). -/
def KeyChord.setScanCode (c : KeyChord) (value : Int) : KeyChord :=
  { c with _scanCode := value }

/-! ## Definitions following the specification -/

/-- The key part of the specification (section 4.3, step 1): the logical key when it is
not zero, the physical key otherwise. -/
def keyPart (c : KeyChord) : Int :=
  if c._vkey ≠ 0 then c._vkey else c._scanCode

/-- The finalizer mix of the specification (section 4.3, step 3):
`h ^= h >> 33; h *= 0xff51afd7ed558ccd; h ^= h >> 33; h *= 0xc4ceb9fe1a85ec53; h ^= h >> 33`
with arithmetic modulo `2 ^ 64`. -/
def specMix (h : Nat) : Nat :=
  let h := h ^^^ (h >>> 33)
  let h := (h * 0xff51afd7ed558ccd) % 2 ^ 64
  let h := h ^^^ (h >>> 33)
  let h := (h * 0xc4ceb9fe1a85ec53) % 2 ^ 64
  let h := h ^^^ (h >>> 33)
  h

/-- The combined hash input of the specification (section 4.3, step 2):
`(uint64(modifiers) << 32) | uint64(uint32(keyPart))`, the key part taken as its 32-bit
unsigned bit pattern and zero-extended. -/
def specCombined (c : KeyChord) : Nat :=
  (((c._modifiers % 2 ^ 64) <<< 32) % 2 ^ 64) ||| toUInt32 (keyPart c)

/-- The hash of the specification (section 4.3): the mix of the combined input. -/
def specHash (c : KeyChord) : Nat := specMix (specCombined c)

/-- The modifier mask of the specification (section 4.1): the bitwise OR of `Control` if
`ctrl`, `Menu` if `alt`, `Shift` if `shift` and `Windows` if `win`; `None` when all four
flags are false. -/
def specModifierMask (ctrl alt shift win : Bool) : VirtualKeyModifiers :=
  (if ctrl then VirtualKeyModifiers.Control else VirtualKeyModifiers.None) |||
    (if alt then VirtualKeyModifiers.Menu else VirtualKeyModifiers.None) |||
    (if shift then VirtualKeyModifiers.Shift else VirtualKeyModifiers.None) |||
    (if win then VirtualKeyModifiers.Windows else VirtualKeyModifiers.None)

/-- The inverse of the finalizer mix on 64-bit values: the three xor-shifts are undone by
themselves and the two multiplications by the inverses of the constants modulo `2 ^ 64`,
`0x9cb4b2f8129337db` for `0xc4ceb9fe1a85ec53` and `0x4f74430c22a54005` for
`0xff51afd7ed558ccd`. -/
def specMixInverse (h : Nat) : Nat :=
  let h := h ^^^ (h >>> 33)
  let h := (h * 0x9cb4b2f8129337db) % 2 ^ 64
  let h := h ^^^ (h >>> 33)
  let h := (h * 0x4f74430c22a54005) % 2 ^ 64
  let h := h ^^^ (h >>> 33)
  h

/-- The stand-in for `MapVirtualKeyW` used in the examples: scan code 41 maps to the
virtual key 192 (the backtick key, `VK_OEM_3`), every other scan code is unmapped. -/
def exampleLayout (uCode _uMapType : Nat) : Nat :=
  if uCode = 41 then 192 else 0

/-! ## Auxiliary lemmas on the 64-bit arithmetic -/

theorem xorShift33_cancel (x : Nat) (hx : x < 2 ^ 64) :
    (x ^^^ (x >>> 33)) ^^^ ((x ^^^ (x >>> 33)) >>> 33) = x := by
  apply Nat.eq_of_testBit_eq
  intro i
  have h66 : x.testBit (33 + (33 + i)) = false := by
    apply Nat.testBit_lt_two_pow
    calc x < 2 ^ 64 := hx
      _ ≤ 2 ^ (33 + (33 + i)) := Nat.pow_le_pow_right (by decide) (by omega)
  simp [Nat.testBit_xor, Nat.testBit_shiftRight, h66]

theorem xorShift33_lt (x : Nat) (hx : x < 2 ^ 64) : x ^^^ (x >>> 33) < 2 ^ 64 := by
  apply Nat.xor_lt_two_pow hx
  rw [Nat.shiftRight_eq_div_pow]
  exact lt_of_le_of_lt (Nat.div_le_self x _) hx

theorem xorShift33_injOn (x y : Nat) (hx : x < 2 ^ 64) (hy : y < 2 ^ 64)
    (h : x ^^^ (x >>> 33) = y ^^^ (y >>> 33)) : x = y := by
  rw [← xorShift33_cancel x hx, ← xorShift33_cancel y hy, h]

theorem mulMod_cancel (c d x : Nat) (hcd : (c * d) % 2 ^ 64 = 1) (hx : x < 2 ^ 64) :
    ((x * c) % 2 ^ 64 * d) % 2 ^ 64 = x := by
  rw [Nat.mod_mul_mod, Nat.mul_assoc, Nat.mul_mod, hcd, Nat.mul_one, Nat.mod_mod,
    Nat.mod_eq_of_lt hx]

theorem mulMod_injOn (c d x y : Nat) (hcd : (c * d) % 2 ^ 64 = 1) (hx : x < 2 ^ 64)
    (hy : y < 2 ^ 64) (h : (x * c) % 2 ^ 64 = (y * c) % 2 ^ 64) : x = y := by
  rw [← mulMod_cancel c d x hcd hx, ← mulMod_cancel c d y hcd hy, h]

/-- The finalizer mix is injective on 64-bit values. -/
theorem specMix_injOn (x y : Nat) (hx : x < 2 ^ 64) (hy : y < 2 ^ 64)
    (h : specMix x = specMix y) : x = y := by
  have hm : ∀ z : Nat, z % 2 ^ 64 < 2 ^ 64 := fun z => Nat.mod_lt _ (by decide)
  have c1 : (0xff51afd7ed558ccd * 0x4f74430c22a54005) % 2 ^ 64 = 1 := by decide
  have c2 : (0xc4ceb9fe1a85ec53 * 0x9cb4b2f8129337db) % 2 ^ 64 = 1 := by decide
  simp only [specMix] at h
  have h1 := xorShift33_injOn _ _ (hm _) (hm _) h
  have h2 := mulMod_injOn _ _ _ _ c2 (xorShift33_lt _ (hm _)) (xorShift33_lt _ (hm _)) h1
  have h3 := xorShift33_injOn _ _ (hm _) (hm _) h2
  have h4 := mulMod_injOn _ _ _ _ c1 (xorShift33_lt _ hx) (xorShift33_lt _ hy) h3
  exact xorShift33_injOn _ _ hx hy h4

/-- The code of `Hash` is the finalizer mix applied to the value built in lines 56-57. -/
theorem Hash_eq_specMix (c : KeyChord) :
    c.Hash = specMix ((((c._modifiers % 2 ^ 64) <<< 32) % 2 ^ 64) ||| toUInt64 (keyPart c)) :=
  rfl

/-- The low 32 bits of `(uint64_t(m) << 32) | b` are those of `b`. -/
theorem shifted_or_mod (m b : Nat) :
    (((m % 2 ^ 64) <<< 32) % 2 ^ 64 ||| b) % 2 ^ 32 = b % 2 ^ 32 := by
  apply Nat.eq_of_testBit_eq
  intro i
  simp only [Nat.testBit_mod_two_pow, Nat.testBit_or, Nat.testBit_shiftLeft]
  by_cases h : i < 32
  · have : ¬ (i ≥ 32) := by omega
    simp [h, this]
  · simp [h]

/-- A value whose bits 32 to 63 are all set absorbs `uint64_t(m) << 32`. -/
theorem shifted_or_absorb (m b lo : Nat) (hm : m < 2 ^ 32) (hlo : lo < 2 ^ 32)
    (hb : b = 2 ^ 32 * (2 ^ 32 - 1) + lo) :
    ((m % 2 ^ 64) <<< 32) % 2 ^ 64 ||| b = b := by
  have ha : ((m % 2 ^ 64) <<< 32) % 2 ^ 64 = 2 ^ 32 * m + 0 := by
    rw [Nat.shiftLeft_eq]; omega
  rw [ha, hb]
  apply Nat.eq_of_testBit_eq
  intro i
  rw [Nat.testBit_or, Nat.testBit_mul_pow_two_add _ (by decide : 0 < 2 ^ 32),
    Nat.testBit_mul_pow_two_add _ hlo, Nat.testBit_two_pow_sub_one]
  by_cases h : i < 32
  · simp [h]
  · by_cases h2 : i - 32 < 32
    · simp [h, h2]
    · have : m.testBit (i - 32) = false := by
        apply Nat.testBit_lt_two_pow
        exact lt_of_lt_of_le hm (Nat.pow_le_pow_right (by decide) (by omega))
      simp [h, h2, this]

theorem toUInt64_lt (i : Int) : toUInt64 i < 2 ^ 64 := by
  unfold toUInt64; omega

theorem toUInt64_mod (i : Int) : toUInt64 i % 2 ^ 32 = toUInt32 i := by
  unfold toUInt64 toUInt32; omega

theorem toUInt32_injOn (i j : Int) (hi : -2 ^ 31 ≤ i ∧ i < 2 ^ 31)
    (hj : -2 ^ 31 ≤ j ∧ j < 2 ^ 31) (h : toUInt32 i = toUInt32 j) : i = j := by
  unfold toUInt32 at h; omega

theorem keyPart_range (c : KeyChord) (hc : c.InRange) :
    -2 ^ 31 ≤ keyPart c ∧ keyPart c < 2 ^ 31 := by
  obtain ⟨_, hv, hs⟩ := hc
  unfold keyPart
  split
  · exact hv
  · exact hs

theorem Equals_modifiers (A B : KeyChord) (h : A.Equals B = true) :
    A._modifiers = B._modifiers := by
  simp only [KeyChord.Equals, Bool.and_eq_true, beq_iff_eq] at h
  exact h.1

/-- The constructor, with the normalized virtual key named. -/
theorem ctor_eq_ite (mvk : Nat → Nat → Nat) (m : VirtualKeyModifiers) (k p : Int) :
    KeyChord.ctor mvk m k p =
      if (if k = 0 then mapScanCodeToVkey mvk p else k) ≠ 0 ∨ p ≠ 0 then
        some ⟨m, if k = 0 then mapScanCodeToVkey mvk p else k, p⟩
      else none :=
  rfl

/-- The constructor returns a chord exactly when the normalized virtual key or the scan
code is not zero, and the chord is then made of the normalized fields. -/
theorem ctor_eq_some_iff (mvk : Nat → Nat → Nat) (m : VirtualKeyModifiers) (k p : Int)
    (c : KeyChord) :
    KeyChord.ctor mvk m k p = some c ↔
      ((if k = 0 then mapScanCodeToVkey mvk p else k) ≠ 0 ∨ p ≠ 0) ∧
        c = ⟨m, if k = 0 then mapScanCodeToVkey mvk p else k, p⟩ := by
  rw [ctor_eq_ite]
  by_cases hcond : (if k = 0 then mapScanCodeToVkey mvk p else k) ≠ 0 ∨ p ≠ 0
  · rw [if_pos hcond]
    constructor
    · intro h
      exact ⟨hcond, (Option.some.inj h).symm⟩
    · intro h
      rw [h.2]
  · rw [if_neg hcond]
    constructor
    · intro h
      cases h
    · intro h
      exact absurd h.1 hcond

/-- The Boolean result of `nonZeroEquals` as a proposition. -/
theorem nonZeroEquals_iff (lhs rhs : Int) :
    nonZeroEquals lhs rhs = true ↔ lhs ≠ 0 ∧ rhs ≠ 0 ∧ lhs = rhs := by
  simp [nonZeroEquals, and_assoc]

/-- The Boolean result of `Equals` as a proposition. -/
theorem Equals_iff (A B : KeyChord) :
    A.Equals B = true ↔
      A._modifiers = B._modifiers ∧
        ((A._vkey ≠ 0 ∧ B._vkey ≠ 0 ∧ A._vkey = B._vkey) ∨
          (A._scanCode ≠ 0 ∧ B._scanCode ≠ 0 ∧ A._scanCode = B._scanCode)) := by
  simp only [KeyChord.Equals, Bool.and_eq_true, Bool.or_eq_true, beq_iff_eq, nonZeroEquals_iff]

/-- The finalizer mix stays within 64 bits. -/
theorem specMix_lt (x : Nat) : specMix x < 2 ^ 64 := by
  simp only [specMix]
  exact xorShift33_lt _ (Nat.mod_lt _ (by decide))

/-- The inverse mix stays within 64 bits. -/
theorem specMixInverse_lt (x : Nat) : specMixInverse x < 2 ^ 64 := by
  simp only [specMixInverse]
  exact xorShift33_lt _ (Nat.mod_lt _ (by decide))

/-- The inverse mix undoes the finalizer mix on 64-bit values. -/
theorem specMixInverse_specMix (x : Nat) (hx : x < 2 ^ 64) : specMixInverse (specMix x) = x := by
  have hm : ∀ z : Nat, z % 2 ^ 64 < 2 ^ 64 := fun z => Nat.mod_lt _ (by decide)
  have c1 : (0xff51afd7ed558ccd * 0x4f74430c22a54005) % 2 ^ 64 = 1 := by decide
  have c2 : (0xc4ceb9fe1a85ec53 * 0x9cb4b2f8129337db) % 2 ^ 64 = 1 := by decide
  simp only [specMix, specMixInverse]
  rw [xorShift33_cancel _ (hm _), mulMod_cancel _ _ _ c2 (xorShift33_lt _ (hm _)),
    xorShift33_cancel _ (hm _), mulMod_cancel _ _ _ c1 (xorShift33_lt _ hx),
    xorShift33_cancel _ hx]

/-- The finalizer mix undoes the inverse mix on 64-bit values. -/
theorem specMix_specMixInverse (y : Nat) (hy : y < 2 ^ 64) : specMix (specMixInverse y) = y := by
  have hm : ∀ z : Nat, z % 2 ^ 64 < 2 ^ 64 := fun z => Nat.mod_lt _ (by decide)
  have d1 : (0x4f74430c22a54005 * 0xff51afd7ed558ccd) % 2 ^ 64 = 1 := by decide
  have d2 : (0x9cb4b2f8129337db * 0xc4ceb9fe1a85ec53) % 2 ^ 64 = 1 := by decide
  simp only [specMix, specMixInverse]
  rw [xorShift33_cancel _ (hm _), mulMod_cancel _ _ _ d1 (xorShift33_lt _ (hm _)),
    xorShift33_cancel _ (hm _), mulMod_cancel _ _ _ d2 (xorShift33_lt _ hy),
    xorShift33_cancel _ hy]

/-- With modifiers and a low part below `2 ^ 32` the OR of line 57 is a sum. -/
theorem shifted_or_eq_add (m k : Nat) (hm : m < 2 ^ 32) (hk : k < 2 ^ 32) :
    ((m % 2 ^ 64) <<< 32) % 2 ^ 64 ||| k = 2 ^ 32 * m + k := by
  have ha : ((m % 2 ^ 64) <<< 32) % 2 ^ 64 = 2 ^ 32 * m := by
    rw [Nat.shiftLeft_eq]; omega
  rw [ha, Nat.mul_add_lt_is_or hk]

/-- The mask built by `modifiersFromBooleans` is the mask of the specification. -/
theorem modifiersFromBooleans_eq_spec (ctrl alt shift win : Bool) :
    modifiersFromBooleans ctrl alt shift win = specModifierMask ctrl alt shift win := by
  cases ctrl <;> cases alt <;> cases shift <;> cases win <;> rfl

/-- The sum `2 ^ 32 * m + uint64(k)` determines `m` and `k`, for a key part that is not
negative. -/
theorem combined_add_injOn (m1 m2 : Nat) (k1 k2 : Int)
    (hk1 : 0 ≤ k1 ∧ k1 < 2 ^ 31) (hk2 : 0 ≤ k2 ∧ k2 < 2 ^ 31)
    (h : 2 ^ 32 * m1 + toUInt64 k1 = 2 ^ 32 * m2 + toUInt64 k2) : m1 = m2 ∧ k1 = k2 := by
  unfold toUInt64 at h
  constructor <;> omega

/-! ## C1: hash and equality -/

/-- C1, as stated, fails: the chords `(Control, 97, 79)` and `(Control, 35, 79)`, both
produced by the constructor, agree on the scan code 79 and so are equal under `Equals`,
but `Hash` reads the two different virtual keys and returns two different values. -/
theorem C1_counterexample :
    KeyChord.ctor exampleLayout 1 97 79 = some ⟨1, 97, 79⟩ ∧
    KeyChord.ctor exampleLayout 1 35 79 = some ⟨1, 35, 79⟩ ∧
    KeyChord.Equals ⟨1, 97, 79⟩ ⟨1, 35, 79⟩ = true ∧
    KeyChord.Hash ⟨1, 97, 79⟩ = 3834679006401151751 ∧
    KeyChord.Hash ⟨1, 35, 79⟩ = 139430421591203063 ∧
    KeyChord.Hash ⟨1, 97, 79⟩ ≠ KeyChord.Hash ⟨1, 35, 79⟩ := by
  decide

/-- C1, amended: for chords `A`, `B` whose fields are in the range of their types and with
`A.Equals(B)`, the hashes are equal exactly when the key parts (the virtual key if not
zero, else the scan code) are equal. -/
theorem C1_equal_chords_hash_iff_keyPart (A B : KeyChord) (hA : A.InRange) (hB : B.InRange)
    (h : A.Equals B = true) : A.Hash = B.Hash ↔ keyPart A = keyPart B := by
  have hm := Equals_modifiers A B h
  rw [Hash_eq_specMix, Hash_eq_specMix, hm]
  constructor
  · intro hh
    have hlt : ∀ k : Int, (((B._modifiers % 2 ^ 64) <<< 32) % 2 ^ 64) ||| toUInt64 k < 2 ^ 64 :=
      fun k => Nat.or_lt_two_pow (Nat.mod_lt _ (by decide)) (toUInt64_lt k)
    have hc := specMix_injOn _ _ (hlt _) (hlt _) hh
    have hlow := congrArg (fun n => n % 2 ^ 32) hc
    simp only [shifted_or_mod, toUInt64_mod] at hlow
    exact toUInt32_injOn _ _ (keyPart_range A hA) (keyPart_range B hB) hlow
  · intro hk
    rw [hk]

/-- Witness of C1 amended: `(Control, 97, 79)` and `(Control, 97, 0)` are equal and have the
same key part, and `(Control, 97, 79)`, `(Control, 35, 79)` are equal with different ones. -/
theorem C1_equal_chords_hash_iff_keyPart_witness :
    (KeyChord.Hash ⟨1, 97, 79⟩ = KeyChord.Hash ⟨1, 97, 0⟩ ↔
      keyPart ⟨1, 97, 79⟩ = keyPart ⟨1, 97, 0⟩) ∧
    (KeyChord.Hash ⟨1, 97, 79⟩ = KeyChord.Hash ⟨1, 35, 79⟩ ↔
      keyPart ⟨1, 97, 79⟩ = keyPart ⟨1, 35, 79⟩) :=
  ⟨C1_equal_chords_hash_iff_keyPart ⟨1, 97, 79⟩ ⟨1, 97, 0⟩ (by decide) (by decide) (by decide),
   C1_equal_chords_hash_iff_keyPart ⟨1, 97, 79⟩ ⟨1, 35, 79⟩ (by decide) (by decide) (by decide)⟩

/-! ## C2: the value of the hash -/

/-- C2, as stated, fails on a negative key part: for the chord `(Control, -1, 0)` the code
converts the `int32_t` value `-1` to `uint64_t` by sign extension, so the mix is applied to
`0xFFFFFFFFFFFFFFFF`, while the claim applies it to `(1 << 32) | 0xFFFFFFFF`. -/
theorem C2_counterexample :
    (⟨1, -1, 0⟩ : KeyChord).InRange ∧
    KeyChord.Hash ⟨1, -1, 0⟩ = specMix 0xFFFFFFFFFFFFFFFF ∧
    specHash ⟨1, -1, 0⟩ = specMix 0x1FFFFFFFF ∧
    KeyChord.Hash ⟨1, -1, 0⟩ = 7256831767414464289 ∧
    specHash ⟨1, -1, 0⟩ = 13874546289339024445 ∧
    KeyChord.Hash ⟨1, -1, 0⟩ ≠ specHash ⟨1, -1, 0⟩ := by
  decide

/-- C2, amended: for a chord whose fields are in the range of their types, `Hash()` is the
finalizer mix of `(uint64(modifiers) << 32) | uint64(uint32(keyPart))` when the key part
is not negative; when the key part is negative its conversion to 64 bits sign-extends and
`Hash()` is the mix of `0xFFFFFFFF00000000 | uint64(uint32(keyPart))`, whatever the
modifiers are. -/
theorem C2_hash_value (c : KeyChord) (hc : c.InRange) :
    (0 ≤ keyPart c → c.Hash = specHash c) ∧
    (keyPart c < 0 → c.Hash = specMix (0xFFFFFFFF00000000 ||| toUInt32 (keyPart c))) := by
  have hk := keyPart_range c hc
  rw [Hash_eq_specMix]
  constructor
  · intro h0
    have : toUInt64 (keyPart c) = toUInt32 (keyPart c) := by
      unfold toUInt64 toUInt32; omega
    rw [this]
    rfl
  · intro h0
    have hlo : toUInt32 (keyPart c) < 2 ^ 32 := by
      unfold toUInt32; omega
    have hb : toUInt64 (keyPart c) = 2 ^ 32 * (2 ^ 32 - 1) + toUInt32 (keyPart c) := by
      unfold toUInt64 toUInt32; omega
    rw [shifted_or_absorb c._modifiers _ _ hc.1 hlo hb, hb, Nat.mul_add_lt_is_or hlo]
    rfl

/-- Witness of C2 amended, at the chords `(Control, 65, 30)` and `(Control, -1, 0)`. -/
theorem C2_hash_value_witness :
    ((0 : Int) ≤ keyPart ⟨1, 65, 30⟩ → KeyChord.Hash ⟨1, 65, 30⟩ = specHash ⟨1, 65, 30⟩) ∧
    (keyPart ⟨1, 65, 30⟩ < 0 → KeyChord.Hash ⟨1, 65, 30⟩ =
      specMix (0xFFFFFFFF00000000 ||| toUInt32 (keyPart ⟨1, 65, 30⟩))) :=
  C2_hash_value ⟨1, 65, 30⟩ (by decide)

/-! ## C3, C4, C5: construction -/

/-- C3: whenever the constructor returns a chord, the chord has the given modifiers and scan
code, and its virtual key is the one mapped from the scan code if the given virtual key is
zero, the given virtual key otherwise (the mapping is then not consulted); the constructor
does return a chord when the given virtual key or the scan code is not zero. In particular
if scan code 41 maps to `b`, constructing from `(Control, 0, 41)` gives the chord
`(Control, b, 41)`. -/
theorem C3_ctor_normalizes (mvk : Nat → Nat → Nat) (m : VirtualKeyModifiers) (k p : Int) :
    (∀ c, KeyChord.ctor mvk m k p = some c →
      c._modifiers = m ∧ c._scanCode = p ∧
        c._vkey = (if k = 0 then mapScanCodeToVkey mvk p else k)) ∧
    (k ≠ 0 → ∀ mvk2 : Nat → Nat → Nat,
      KeyChord.ctor mvk2 m k p = some ⟨m, k, p⟩) ∧
    (k ≠ 0 ∨ p ≠ 0 → ∃ c, KeyChord.ctor mvk m k p = some c) ∧
    (∀ b, mapScanCodeToVkey mvk 41 = b →
      KeyChord.ctor mvk VirtualKeyModifiers.Control 0 41 =
        some ⟨VirtualKeyModifiers.Control, b, 41⟩) := by
  refine ⟨?_, ?_, ?_, ?_⟩
  · intro c h
    obtain ⟨_, hc⟩ := (ctor_eq_some_iff mvk m k p c).mp h
    rw [hc]
    exact ⟨rfl, rfl, rfl⟩
  · intro hk mvk2
    simp [KeyChord.ctor, hk]
  · intro h
    unfold KeyChord.ctor
    by_cases hk : k = 0
    · have hp : p ≠ 0 := by
        rcases h with h | h
        · exact absurd hk h
        · exact h
      simp [hk, hp]
    · simp [hk]
  · intro b hb
    simp [KeyChord.ctor, hb]

/-- Witness of C3: with the example layout, where scan code 41 maps to virtual key 192,
constructing from `(Control, 0, 41)` gives `(Control, 192, 41)`. -/
theorem C3_ctor_normalizes_witness :
    KeyChord.ctor exampleLayout VirtualKeyModifiers.Control 0 41 =
      some ⟨VirtualKeyModifiers.Control, 192, 41⟩ :=
  (C3_ctor_normalizes exampleLayout VirtualKeyModifiers.Control 0 41).2.2.2 192 (by decide)

/-- C4: a chord returned by either constructor has a virtual key or a scan code that is not
zero, and its virtual key is zero only if the given virtual key was zero and the scan code
maps to zero. -/
theorem C4_construction_invariant (mvk : Nat → Nat → Nat) (k p : Int) (c : KeyChord)
    (h : (∃ m, KeyChord.ctor mvk m k p = some c) ∨
      (∃ ctrl alt shift win, KeyChord.ctorFromBooleans mvk ctrl alt shift win k p = some c)) :
    (c._vkey ≠ 0 ∨ c._scanCode ≠ 0) ∧
    (c._vkey = 0 → k = 0 ∧ mapScanCodeToVkey mvk p = 0) := by
  have key : ∀ m, KeyChord.ctor mvk m k p = some c →
      (c._vkey ≠ 0 ∨ c._scanCode ≠ 0) ∧
      (c._vkey = 0 → k = 0 ∧ mapScanCodeToVkey mvk p = 0) := by
    intro m hm
    obtain ⟨hne, hc⟩ := (ctor_eq_some_iff mvk m k p c).mp hm
    rw [hc]
    refine ⟨hne, ?_⟩
    intro hz
    by_cases hk : k = 0
    · simp only [hk, if_true] at hz
      exact ⟨hk, hz⟩
    · simp only [hk, if_false] at hz
  rcases h with ⟨m, hm⟩ | ⟨ctrl, alt, shift, win, hm⟩
  · exact key m hm
  · exact key _ hm

/-- Witness of C4: the chord `(Shift, 0, 101)` built from an unmapped scan code. -/
theorem C4_construction_invariant_witness :
    ((⟨4, 0, 101⟩ : KeyChord)._vkey ≠ 0 ∨ (⟨4, 0, 101⟩ : KeyChord)._scanCode ≠ 0) ∧
    ((⟨4, 0, 101⟩ : KeyChord)._vkey = 0 → (0 : Int) = 0 ∧ mapScanCodeToVkey exampleLayout 101 = 0) :=
  C4_construction_invariant exampleLayout 0 101 ⟨4, 0, 101⟩ (Or.inl ⟨4, by decide⟩)

/-- C5: the constructor takes the fault path exactly when the given virtual key is zero,
the scan code is zero and scan code zero maps to zero; in every other case, in particular
whenever the scan code is not zero, it returns a chord. -/
theorem C5_fault_iff (mvk : Nat → Nat → Nat) (m : VirtualKeyModifiers) (k p : Int) :
    (KeyChord.ctor mvk m k p = none ↔ (k = 0 ∧ p = 0 ∧ mapScanCodeToVkey mvk 0 = 0)) ∧
    (¬ (k = 0 ∧ p = 0 ∧ mapScanCodeToVkey mvk 0 = 0) → ∃ c, KeyChord.ctor mvk m k p = some c) ∧
    (p ≠ 0 → ∃ c, KeyChord.ctor mvk m k p = some c) := by
  have hiff : KeyChord.ctor mvk m k p = none ↔
      (k = 0 ∧ p = 0 ∧ mapScanCodeToVkey mvk 0 = 0) := by
    unfold KeyChord.ctor
    by_cases hk : k = 0
    · by_cases hp : p = 0
      · by_cases hr : mapScanCodeToVkey mvk 0 = 0
        · simp [hk, hp, hr]
        · simp [hk, hp, hr]
      · simp [hk, hp]
    · simp [hk]
  refine ⟨hiff, ?_, ?_⟩
  · intro hn
    cases hc : KeyChord.ctor mvk m k p with
    | none => exact absurd (hiff.mp hc) hn
    | some c => exact ⟨c, rfl⟩
  · intro hp
    cases hc : KeyChord.ctor mvk m k p with
    | none => exact absurd (hiff.mp hc).2.1 hp
    | some c => exact ⟨c, rfl⟩

/-! ## C6: equivalence after normalization -/

/-- C6: if the virtual key `k` is not zero and the scan code `p` maps to `k`, then the
constructor returns a chord `A` for `(m, k, 0)` and a chord `B` for `(m, 0, p)`, and
`A.Equals(B)` is true and `A.Hash() == B.Hash()`. -/
theorem C6_equivalent_after_normalization (mvk : Nat → Nat → Nat) (m : VirtualKeyModifiers)
    (k p : Int) (hk : k ≠ 0) (hr : mapScanCodeToVkey mvk p = k) :
    ∃ A B, KeyChord.ctor mvk m k 0 = some A ∧ KeyChord.ctor mvk m 0 p = some B ∧
      A.Equals B = true ∧ A.Hash = B.Hash := by
  refine ⟨⟨m, k, 0⟩, ⟨m, k, p⟩, ?_, ?_, ?_, ?_⟩
  · simp [KeyChord.ctor, hk]
  · simp [KeyChord.ctor, hr, hk]
  · rw [Equals_iff]
    exact ⟨rfl, Or.inl ⟨hk, hk, rfl⟩⟩
  · simp [KeyChord.Hash, hk]

/-- Witness of C6: modifiers `Control`, virtual key 192 (backtick) and scan code 41 under
the example layout. -/
theorem C6_equivalent_after_normalization_witness :
    ∃ A B, KeyChord.ctor exampleLayout VirtualKeyModifiers.Control 192 0 = some A ∧
      KeyChord.ctor exampleLayout VirtualKeyModifiers.Control 0 41 = some B ∧
      A.Equals B = true ∧ A.Hash = B.Hash :=
  C6_equivalent_after_normalization exampleLayout VirtualKeyModifiers.Control 192 41
    (by decide) (by decide)

/-! ## C7, C8, C9: equality as a relation -/

/-- C7: a chord whose virtual key or scan code is not zero is equal to itself. -/
theorem C7_equals_reflexive (A : KeyChord) (h : A._vkey ≠ 0 ∨ A._scanCode ≠ 0) :
    A.Equals A = true := by
  rw [Equals_iff]
  refine ⟨rfl, ?_⟩
  rcases h with h | h
  · exact Or.inl ⟨h, h, rfl⟩
  · exact Or.inr ⟨h, h, rfl⟩

/-- Witness of C7: the chord `(Control, 0, 41)`. -/
theorem C7_equals_reflexive_witness :
    KeyChord.Equals ⟨1, 0, 41⟩ ⟨1, 0, 41⟩ = true :=
  C7_equals_reflexive ⟨1, 0, 41⟩ (Or.inr (by decide))

/-- C8: `Equals` is symmetric, `A.Equals(B) == B.Equals(A)` for all chords. -/
theorem C8_equals_symmetric (A B : KeyChord) : A.Equals B = B.Equals A := by
  rw [Bool.eq_iff_iff, Equals_iff, Equals_iff]
  constructor
  · rintro ⟨hm, h | h⟩
    · exact ⟨hm.symm, Or.inl ⟨h.2.1, h.1, h.2.2.symm⟩⟩
    · exact ⟨hm.symm, Or.inr ⟨h.2.1, h.1, h.2.2.symm⟩⟩
  · rintro ⟨hm, h | h⟩
    · exact ⟨hm.symm, Or.inl ⟨h.2.1, h.1, h.2.2.symm⟩⟩
    · exact ⟨hm.symm, Or.inr ⟨h.2.1, h.1, h.2.2.symm⟩⟩

/-- C9: `Equals` is not transitive. There are chords `A`, `B`, `C`, each with a key field
that is not zero, with `A.Equals(B)` and `B.Equals(C)` true and `A.Equals(C)` false; and
this happens for every `A = (m, k, 0)`, `B = (m, k, p)`, `C = (m, 0, p)` with `k` and `p`
not zero. -/
theorem C9_equals_not_transitive :
    (∃ A B C : KeyChord,
      (A._vkey ≠ 0 ∨ A._scanCode ≠ 0) ∧ (B._vkey ≠ 0 ∨ B._scanCode ≠ 0) ∧
      (C._vkey ≠ 0 ∨ C._scanCode ≠ 0) ∧
      A.Equals B = true ∧ B.Equals C = true ∧ A.Equals C = false) ∧
    (∀ (m : VirtualKeyModifiers) (k p : Int), k ≠ 0 → p ≠ 0 →
      KeyChord.Equals ⟨m, k, 0⟩ ⟨m, k, p⟩ = true ∧
      KeyChord.Equals ⟨m, k, p⟩ ⟨m, 0, p⟩ = true ∧
      KeyChord.Equals ⟨m, k, 0⟩ ⟨m, 0, p⟩ = false) := by
  constructor
  · exact ⟨⟨1, 192, 0⟩, ⟨1, 192, 41⟩, ⟨1, 0, 41⟩, by decide⟩
  · intro m k p hk hp
    refine ⟨?_, ?_, ?_⟩
    · rw [Equals_iff]
      exact ⟨rfl, Or.inl ⟨hk, hk, rfl⟩⟩
    · rw [Equals_iff]
      exact ⟨rfl, Or.inr ⟨hp, hp, rfl⟩⟩
    · rw [← Bool.not_eq_true, Equals_iff]
      rintro ⟨_, h | h⟩
      · exact h.2.1 rfl
      · exact h.1 rfl

/-! ## C10: unset fields do not collide -/

/-- C10: if the scan codes `p` and `q` are distinct and both map to zero, then chords
`A`, `B` returned by the constructor for `(m, 0, p)` and `(m, 0, q)` have virtual key zero
and `A.Equals(B)` is false (also on the unchecked field values); both constructions return
a chord when `p` and `q` are not zero. More generally two chords with virtual key zero are
equal exactly when they have the same modifiers and the same scan code, not zero. -/
theorem C10_unset_fields_do_not_collide (mvk : Nat → Nat → Nat) (m : VirtualKeyModifiers)
    (p q : Int) (hpq : p ≠ q) (hp : mapScanCodeToVkey mvk p = 0)
    (hq : mapScanCodeToVkey mvk q = 0) :
    (∀ A B, KeyChord.ctor mvk m 0 p = some A → KeyChord.ctor mvk m 0 q = some B →
      A.Equals B = false ∧ A._vkey = 0 ∧ B._vkey = 0) ∧
    KeyChord.Equals ⟨m, 0, p⟩ ⟨m, 0, q⟩ = false ∧
    (p ≠ 0 → q ≠ 0 →
      KeyChord.ctor mvk m 0 p = some ⟨m, 0, p⟩ ∧ KeyChord.ctor mvk m 0 q = some ⟨m, 0, q⟩) ∧
    (∀ A B : KeyChord, A._vkey = 0 → B._vkey = 0 →
      (A.Equals B = true ↔
        A._modifiers = B._modifiers ∧ A._scanCode ≠ 0 ∧ A._scanCode = B._scanCode)) := by
  have hraw : KeyChord.Equals ⟨m, 0, p⟩ ⟨m, 0, q⟩ = false := by
    rw [← Bool.not_eq_true, Equals_iff]
    rintro ⟨_, h | h⟩
    · exact h.1 rfl
    · exact hpq h.2.2
  refine ⟨?_, hraw, ?_, ?_⟩
  · intro A B hA hB
    obtain ⟨_, hA⟩ := (ctor_eq_some_iff mvk m 0 p A).mp hA
    obtain ⟨_, hB⟩ := (ctor_eq_some_iff mvk m 0 q B).mp hB
    simp only [if_true, hp, hq] at hA hB
    rw [hA, hB]
    exact ⟨hraw, rfl, rfl⟩
  · intro hp0 hq0
    constructor
    · simp [KeyChord.ctor, hp, hp0]
    · simp [KeyChord.ctor, hq, hq0]
  · intro A B hA hB
    rw [Equals_iff]
    constructor
    · rintro ⟨hm, h | h⟩
      · exact absurd hA h.1
      · exact ⟨hm, h.1, h.2.2⟩
    · rintro ⟨hm, h0, he⟩
      exact ⟨hm, Or.inr ⟨h0, he ▸ h0, he⟩⟩

/-- Witness of C10: modifiers `Shift` and the scan codes 101 and 102, both unmapped in the
example layout. -/
theorem C10_unset_fields_do_not_collide_witness :
    KeyChord.ctor exampleLayout VirtualKeyModifiers.Shift 0 101 = some ⟨4, 0, 101⟩ ∧
    KeyChord.ctor exampleLayout VirtualKeyModifiers.Shift 0 102 = some ⟨4, 0, 102⟩ ∧
    KeyChord.Equals ⟨4, 0, 101⟩ ⟨4, 0, 102⟩ = false ∧
    (⟨4, 0, 101⟩ : KeyChord)._vkey = 0 ∧ (⟨4, 0, 102⟩ : KeyChord)._vkey = 0 :=
  have h := C10_unset_fields_do_not_collide exampleLayout VirtualKeyModifiers.Shift 101 102
    (by decide) (by decide) (by decide)
  ⟨by decide, by decide, h.1 ⟨4, 0, 101⟩ ⟨4, 0, 102⟩ (by decide) (by decide)⟩

/-! ## C11: modifier sensitivity -/

/-- C11: two chords whose modifier bitmasks differ are not equal under `Equals`, whatever
their key fields are. -/
theorem C11_modifier_sensitivity (A B : KeyChord) (h : A._modifiers ≠ B._modifiers) :
    A.Equals B = false := by
  rw [← Bool.not_eq_true, Equals_iff]
  rintro ⟨hm, _⟩
  exact h hm

/-- Witness of C11: the chords constructed from `(Control, 65, 0)` and from
`(Control | Shift, 65, 0)`. -/
theorem C11_modifier_sensitivity_witness :
    KeyChord.ctor exampleLayout VirtualKeyModifiers.Control 65 0 = some ⟨1, 65, 0⟩ ∧
    KeyChord.ctor exampleLayout (VirtualKeyModifiers.Control ||| VirtualKeyModifiers.Shift) 65 0 =
      some ⟨5, 65, 0⟩ ∧
    KeyChord.Equals ⟨1, 65, 0⟩ ⟨5, 65, 0⟩ = false :=
  ⟨by decide, by decide, C11_modifier_sensitivity ⟨1, 65, 0⟩ ⟨5, 65, 0⟩ (by decide)⟩

/-! ## C12: the constructor from Boolean flags -/

/-- C12: the constructor from four Boolean flags gives exactly the result of the canonical
constructor at the mask that is the bitwise OR of `Control` if `ctrl`, `Menu` if `alt`,
`Shift` if `shift` and `Windows` if `win`, for all keys and every layout, faults included.
In particular the flags `(true, false, false, false)` with keys `(65, 0)` give the chord of
`(Control, 65, 0)`, and the two are equal under `Equals`. -/
theorem C12_boolean_constructor_equivalence (mvk : Nat → Nat → Nat)
    (ctrl alt shift win : Bool) (k p : Int) :
    KeyChord.ctorFromBooleans mvk ctrl alt shift win k p =
      KeyChord.ctor mvk (specModifierMask ctrl alt shift win) k p ∧
    (∃ A B, KeyChord.ctorFromBooleans mvk true false false false 65 0 = some A ∧
      KeyChord.ctor mvk VirtualKeyModifiers.Control 65 0 = some B ∧
      A = B ∧ A.Equals B = true) := by
  constructor
  · unfold KeyChord.ctorFromBooleans
    rw [modifiersFromBooleans_eq_spec]
  · refine ⟨⟨1, 65, 0⟩, ⟨1, 65, 0⟩, ?_, ?_, rfl, by decide⟩
    · simp [KeyChord.ctorFromBooleans, KeyChord.ctor, modifiersFromBooleans, WI_SetFlagIf,
        VirtualKeyModifiers.None, VirtualKeyModifiers.Control]
    · simp [KeyChord.ctor, VirtualKeyModifiers.Control]

/-! ## C13: the setters -/

/-- C13: each setter stores its value in its own field and leaves the two other fields
unchanged, and no setter runs the normalization of the constructor: setting the virtual key
to zero leaves it zero also when the scan code of the chord maps to a virtual key that is
not zero, and setting the scan code leaves a virtual key of zero as it is also when the new
scan code maps to a virtual key that is not zero (the constructor would store the mapped
key in both cases). -/
theorem C13_setters_frame (c : KeyChord) (v : Int) (w : VirtualKeyModifiers) :
    ((c.setVkey v).Vkey = v ∧ (c.setVkey v).Modifiers = c.Modifiers ∧
      (c.setVkey v).ScanCode = c.ScanCode) ∧
    ((c.setScanCode v).ScanCode = v ∧ (c.setScanCode v).Modifiers = c.Modifiers ∧
      (c.setScanCode v).Vkey = c.Vkey) ∧
    ((c.setModifiers w).Modifiers = w ∧ (c.setModifiers w).Vkey = c.Vkey ∧
      (c.setModifiers w).ScanCode = c.ScanCode) ∧
    (∀ mvk : Nat → Nat → Nat, mapScanCodeToVkey mvk c._scanCode ≠ 0 →
      (c.setVkey 0).Vkey = 0 ∧
      KeyChord.ctor mvk c._modifiers 0 c._scanCode ≠ some (c.setVkey 0)) ∧
    (∀ mvk : Nat → Nat → Nat, c._vkey = 0 → mapScanCodeToVkey mvk v ≠ 0 →
      (c.setScanCode v).Vkey = 0 ∧
      KeyChord.ctor mvk c._modifiers 0 v ≠ some (c.setScanCode v)) := by
  refine ⟨⟨rfl, rfl, rfl⟩, ⟨rfl, rfl, rfl⟩, ⟨rfl, rfl, rfl⟩, ?_, ?_⟩
  · intro mvk hr
    refine ⟨rfl, ?_⟩
    intro h
    obtain ⟨_, hc⟩ := (ctor_eq_some_iff mvk c._modifiers 0 c._scanCode _).mp h
    have hv := congrArg KeyChord._vkey hc
    simp only [KeyChord.setVkey, if_true] at hv
    exact hr hv.symm
  · intro mvk hz hr
    refine ⟨hz, ?_⟩
    intro h
    obtain ⟨_, hc⟩ := (ctor_eq_some_iff mvk c._modifiers 0 v _).mp h
    have hv := congrArg KeyChord._vkey hc
    simp only [KeyChord.setScanCode, if_true] at hv
    rw [hz] at hv
    exact hr hv.symm

/-! ## C14: the hash as a function of modifiers and key part -/

/-- C14: two chords with the same modifiers and the same key part (the virtual key if it is
not zero, else the scan code) have the same hash; in particular when the virtual key is not
zero the hash stays the same whatever value the scan code is set to. -/
theorem C14_hash_depends_on_modifiers_and_keyPart (A B : KeyChord) :
    (A._modifiers = B._modifiers → keyPart A = keyPart B → A.Hash = B.Hash) ∧
    (A._vkey ≠ 0 → ∀ s : Int, (A.setScanCode s).Hash = A.Hash) := by
  constructor
  · intro hm hk
    rw [Hash_eq_specMix, Hash_eq_specMix, hm, hk]
  · intro hv s
    simp [KeyChord.Hash, KeyChord.setScanCode, hv]

/-- Witness of C14: the chords `(Control, 192, 0)` and `(Control, 192, 41)` have the hash
5737966660475886766. -/
theorem C14_hash_depends_on_modifiers_and_keyPart_witness :
    KeyChord.Hash ⟨1, 192, 0⟩ = KeyChord.Hash ⟨1, 192, 41⟩ ∧
    KeyChord.Hash ⟨1, 192, 0⟩ = 5737966660475886766 :=
  ⟨(C14_hash_depends_on_modifiers_and_keyPart ⟨1, 192, 0⟩ ⟨1, 192, 41⟩).1 (by decide) (by decide),
   by decide⟩

/-! ## C15: the finalizer mix is a bijection -/

/-- C15: the finalizer mix applied by `Hash` is a bijection of the 64-bit unsigned integers:
it maps them to 64-bit values, is injective and surjective on them, and `specMixInverse`
undoes it; `Hash` is this mix applied to the value built in lines 56-57, so two chords with
distinct combined values never have the same hash. -/
theorem C15_mix_bijective :
    (∀ x, x < 2 ^ 64 → specMix x < 2 ^ 64) ∧
    (∀ x y, x < 2 ^ 64 → y < 2 ^ 64 → specMix x = specMix y → x = y) ∧
    (∀ y, y < 2 ^ 64 → ∃ x, x < 2 ^ 64 ∧ specMix x = y) ∧
    (∀ x, x < 2 ^ 64 → specMixInverse (specMix x) = x) ∧
    (∀ A B : KeyChord,
      (((A._modifiers % 2 ^ 64) <<< 32) % 2 ^ 64) ||| toUInt64 (keyPart A) ≠
        (((B._modifiers % 2 ^ 64) <<< 32) % 2 ^ 64) ||| toUInt64 (keyPart B) →
      A.Hash ≠ B.Hash) := by
  refine ⟨fun x _ => specMix_lt x, specMix_injOn, ?_, specMixInverse_specMix, ?_⟩
  · intro y hy
    exact ⟨specMixInverse y, specMixInverse_lt y, specMix_specMixInverse y hy⟩
  · intro A B hne hh
    rw [Hash_eq_specMix, Hash_eq_specMix] at hh
    have hlt : ∀ c : KeyChord,
        (((c._modifiers % 2 ^ 64) <<< 32) % 2 ^ 64) ||| toUInt64 (keyPart c) < 2 ^ 64 :=
      fun c => Nat.or_lt_two_pow (Nat.mod_lt _ (by decide)) (toUInt64_lt _)
    exact hne (specMix_injOn _ _ (hlt A) (hlt B) hh)

/-! ## C16: no collisions on key parts that are not negative -/

/-- C16: for chords `A`, `B` whose fields are in the range of their types (modifiers within
32 bits) and whose key parts are not negative, `A.Hash() == B.Hash()` if and only if the
modifiers are equal and the key parts are equal. -/
theorem C16_hash_collision_free (A B : KeyChord) (hA : A.InRange) (hB : B.InRange)
    (hkA : 0 ≤ keyPart A) (hkB : 0 ≤ keyPart B) :
    A.Hash = B.Hash ↔ A._modifiers = B._modifiers ∧ keyPart A = keyPart B := by
  have hrA := keyPart_range A hA
  have hrB := keyPart_range B hB
  constructor
  · intro hh
    rw [Hash_eq_specMix, Hash_eq_specMix] at hh
    have hlt : ∀ c : KeyChord,
        (((c._modifiers % 2 ^ 64) <<< 32) % 2 ^ 64) ||| toUInt64 (keyPart c) < 2 ^ 64 :=
      fun c => Nat.or_lt_two_pow (Nat.mod_lt _ (by decide)) (toUInt64_lt _)
    have hc := specMix_injOn _ _ (hlt A) (hlt B) hh
    have huA : toUInt64 (keyPart A) < 2 ^ 32 := by unfold toUInt64; omega
    have huB : toUInt64 (keyPart B) < 2 ^ 32 := by unfold toUInt64; omega
    rw [shifted_or_eq_add _ _ hA.1 huA, shifted_or_eq_add _ _ hB.1 huB] at hc
    exact combined_add_injOn _ _ _ _ ⟨hkA, hrA.2⟩ ⟨hkB, hrB.2⟩ hc
  · rintro ⟨hm, hk⟩
    rw [Hash_eq_specMix, Hash_eq_specMix, hm, hk]

/-- Witness of C16: the chords `(Control, 65, 30)` and `(Control | Shift, 65, 30)`. -/
theorem C16_hash_collision_free_witness :
    (KeyChord.Hash ⟨1, 65, 30⟩ = KeyChord.Hash ⟨5, 65, 30⟩ ↔
      (⟨1, 65, 30⟩ : KeyChord)._modifiers = (⟨5, 65, 30⟩ : KeyChord)._modifiers ∧
        keyPart ⟨1, 65, 30⟩ = keyPart ⟨5, 65, 30⟩) :=
  C16_hash_collision_free ⟨1, 65, 30⟩ ⟨5, 65, 30⟩ (by decide) (by decide) (by decide)
    (by decide)

/-! ## C17: hash and equality on chords with the same virtual key -/

/-- C17: for chords `A`, `B` with the same virtual key (both zero, or the same value that is
not zero), `A.Equals(B)` implies `A.Hash() == B.Hash()`. -/
theorem C17_restricted_hash_consistency (A B : KeyChord) (hv : A._vkey = B._vkey)
    (h : A.Equals B = true) : A.Hash = B.Hash := by
  obtain ⟨hm, hkeys⟩ := (Equals_iff A B).mp h
  have hk : keyPart A = keyPart B := by
    unfold keyPart
    by_cases h0 : A._vkey = 0
    · have h0B : B._vkey = 0 := hv ▸ h0
      rcases hkeys with hk | hk
      · exact absurd h0 hk.1
      · simp [h0, h0B, hk.2.2]
    · have h0B : B._vkey ≠ 0 := hv ▸ h0
      simp [h0, h0B, hv]
  rw [Hash_eq_specMix, Hash_eq_specMix, hm, hk]

/-- Witness of C17: the chords `(Shift, 0, 101)` and `(Shift, 0, 101)` with no virtual key,
and the chords `(Control, 192, 0)` and `(Control, 192, 41)` with the virtual key 192. -/
theorem C17_restricted_hash_consistency_witness :
    KeyChord.Hash ⟨4, 0, 101⟩ = KeyChord.Hash ⟨4, 0, 101⟩ ∧
    KeyChord.Hash ⟨1, 192, 0⟩ = KeyChord.Hash ⟨1, 192, 41⟩ :=
  ⟨C17_restricted_hash_consistency ⟨4, 0, 101⟩ ⟨4, 0, 101⟩ (by decide) (by decide),
   C17_restricted_hash_consistency ⟨1, 192, 0⟩ ⟨1, 192, 41⟩ (by decide) (by decide)⟩

/-! ## C18: a chord with no key -/

/-- C18: a chord whose virtual key and scan code are both zero is equal to no chord, in
either order and itself included; so a chord is equal to itself exactly when one of its two
key fields is not zero. The setters reach such a chord from any chord. -/
theorem C18_no_key_never_matches :
    (∀ A B : KeyChord, A._vkey = 0 → A._scanCode = 0 →
      A.Equals B = false ∧ B.Equals A = false ∧ A.Equals A = false) ∧
    (∀ A : KeyChord, A.Equals A = true ↔ (A._vkey ≠ 0 ∨ A._scanCode ≠ 0)) ∧
    (∀ c : KeyChord, ((c.setVkey 0).setScanCode 0)._vkey = 0 ∧
      ((c.setVkey 0).setScanCode 0)._scanCode = 0 ∧
      ((c.setVkey 0).setScanCode 0)._modifiers = c._modifiers) := by
  have hleft : ∀ A B : KeyChord, A._vkey = 0 → A._scanCode = 0 → A.Equals B = false := by
    intro A B hv hs
    rw [← Bool.not_eq_true, Equals_iff]
    rintro ⟨_, h | h⟩
    · exact h.1 hv
    · exact h.1 hs
  have hright : ∀ A B : KeyChord, A._vkey = 0 → A._scanCode = 0 → B.Equals A = false := by
    intro A B hv hs
    rw [← Bool.not_eq_true, Equals_iff]
    rintro ⟨_, h | h⟩
    · exact h.2.1 hv
    · exact h.2.1 hs
  refine ⟨fun A B hv hs => ⟨hleft A B hv hs, hright A B hv hs, hleft A A hv hs⟩, ?_,
    fun c => ⟨rfl, rfl, rfl⟩⟩
  intro A
  rw [Equals_iff]
  constructor
  · rintro ⟨_, h | h⟩
    · exact Or.inl h.1
    · exact Or.inr h.1
  · rintro (h | h)
    · exact ⟨rfl, Or.inl ⟨h, h, rfl⟩⟩
    · exact ⟨rfl, Or.inr ⟨h, h, rfl⟩⟩

/-! ## C19: normalization is idempotent -/

/-- C19: if the constructor returns the chord `c` for `(m, k, p)`, then under the same
layout the constructor called with the fields of `c` does not fault and returns `c`. -/
theorem C19_normalization_idempotent (mvk : Nat → Nat → Nat) (m : VirtualKeyModifiers)
    (k p : Int) (c : KeyChord) (h : KeyChord.ctor mvk m k p = some c) :
    KeyChord.ctor mvk c._modifiers c._vkey c._scanCode = some c := by
  obtain ⟨hne, hc⟩ := (ctor_eq_some_iff mvk m k p c).mp h
  have hfix : (if c._vkey = 0 then mapScanCodeToVkey mvk c._scanCode else c._vkey) = c._vkey := by
    by_cases hz : c._vkey = 0
    · rw [if_pos hz, hz]
      rw [hc] at hz ⊢
      by_cases hk : k = 0
      · simpa [hk] using hz
      · simp only [hk, if_false] at hz
    · rw [if_neg hz]
  rw [ctor_eq_some_iff, hfix]
  constructor
  · rw [hc]
    exact hne
  · rfl

/-- Witness of C19: under the example layout the constructor returns `(Control, 192, 41)`
for `(Control, 0, 41)` and returns it again when called with its fields. -/
theorem C19_normalization_idempotent_witness :
    KeyChord.ctor exampleLayout 1 0 41 = some ⟨1, 192, 41⟩ ∧
    KeyChord.ctor exampleLayout 1 192 41 = some ⟨1, 192, 41⟩ :=
  ⟨by decide, C19_normalization_idempotent exampleLayout 1 0 41 ⟨1, 192, 41⟩ (by decide)⟩

end Microsoft.Terminal.Control
